import Mathlib

/-!
Verification of the JobVista-Pro backend (`src/app.py`) against its
natural-language specification.

The embedding models:
* the single `jobs` table as a list of `Row` values plus an autoincrement
  counter (`State`);
* `json.dumps` / `json.loads` restricted to lists of strings (the only JSON
  values this program ever stores), including the `ensure_ascii` escaping
  that Python's encoder applies; the decoder rejects lone surrogate escapes,
  which Lean's `Char` cannot represent and which the encoder never emits;
* `str.lower` as ASCII lowering (`Char.toLower`), the range relevant to the
  stored data and to the spec's case-insensitivity statements;
* the four request handlers `get_jobs`, `apply_to_job`, plus the read-only
  health/home endpoints, with the SQLite query
  `SELECT * FROM jobs ORDER BY posted_date DESC` modelled as a sort by the
  date string (SQLite's BINARY collation on UTF-8 text orders exactly like
  codepoint-lexicographic string order);
* a failed request (decode exception, surfaced as HTTP 500) as `none`.
-/

/-- Model of Python `str.lower` (ASCII range, which is all this program stores
and compares). -/
def lowerStr (s : String) : String := String.mk (s.data.map Char.toLower)

/-- Does the second list start with the first one? Helper for Python's
substring test. -/
def startsWithCL : List Char → List Char → Bool
  | [], _ => true
  | _ :: _, [] => false
  | a :: as, b :: bs => a == b && startsWithCL as bs

/-- Occurrence of `needle` anywhere in the second list. -/
def containsSub (needle : List Char) : List Char → Bool
  | [] => needle.isEmpty
  | c :: rest => startsWithCL needle (c :: rest) || containsSub needle rest

/-- Model of Python `needle in hay` for strings (substring containment). -/
def strIn (needle hay : String) : Bool := containsSub needle.data hay.data

/-- JSON whitespace. -/
def isWs (c : Char) : Bool := c == ' ' || c == '\t' || c == '\n' || c == '\r'

/-- Drop leading JSON whitespace. -/
def skipWs : List Char → List Char
  | [] => []
  | c :: r => if isWs c then skipWs r else c :: r

/-- Value of one hex digit, as accepted by Python's JSON decoder. -/
def hexVal (c : Char) : Option Nat :=
  if '0' ≤ c ∧ c ≤ '9' then some (c.toNat - 48)
  else if 'a' ≤ c ∧ c ≤ 'f' then some (c.toNat - 87)
  else if 'A' ≤ c ∧ c ≤ 'F' then some (c.toNat - 55)
  else none

/-- Value of a four-hex-digit group in a `\uXXXX` escape. -/
def hex4val (a b c d : Char) : Option Nat :=
  match hexVal a, hexVal b, hexVal c, hexVal d with
  | some x, some y, some z, some w => some (x * 4096 + y * 256 + z * 16 + w)
  | _, _, _, _ => none

/-- Lower-case hex digit, as Python's `format(n, \x7b04x\x7d`-style) encoder
emits. -/
def toHexDigit (n : Nat) : Char :=
  if n < 10 then Char.ofNat (48 + n) else Char.ofNat (87 + n)

/-- Four lower-case hex digits of `n < 0x10000`. -/
def hex4 (n : Nat) : List Char :=
  [toHexDigit (n / 4096), toHexDigit (n / 256 % 16), toHexDigit (n / 16 % 16),
   toHexDigit (n % 16)]

/-- The short escapes of Python's JSON encoder (its `ESCAPE_DCT`). -/
def escDct (c : Char) : Option (List Char) :=
  if c = '"' then some ['\\', '"']
  else if c = '\\' then some ['\\', '\\']
  else if c = '\n' then some ['\\', 'n']
  else if c = '\r' then some ['\\', 'r']
  else if c = '\t' then some ['\\', 't']
  else if c = Char.ofNat 8 then some ['\\', 'b']
  else if c = Char.ofNat 12 then some ['\\', 'f']
  else none

/-- Escape of one character under `json.dumps` with `ensure_ascii=True`:
short escapes, literal printable ASCII, `\uXXXX` otherwise, surrogate pairs
above `0xFFFF`. -/
def escapeChar (c : Char) : List Char :=
  match escDct c with
  | some e => e
  | none =>
    if c.toNat < 0x20 ∨ 0x7e < c.toNat then
      if c.toNat < 0x10000 then '\\' :: 'u' :: hex4 c.toNat
      else
        ('\\' :: 'u' :: hex4 (0xd800 + (c.toNat - 0x10000) / 0x400)) ++
        ('\\' :: 'u' :: hex4 (0xdc00 + (c.toNat - 0x10000) % 0x400))
    else [c]

/-- Escaped body of a JSON string literal. -/
def encStrBody : List Char → List Char
  | [] => []
  | c :: cs => escapeChar c ++ encStrBody cs

/-- A JSON string literal as `json.dumps` renders it. -/
def encStr (s : String) : List Char := '"' :: (encStrBody s.data ++ ['"'])

/-- Comma-space separated items of a JSON array, `json.dumps`'s default
item separator. -/
def encItems : List String → List Char
  | [] => []
  | [s] => encStr s
  | s :: rest => encStr s ++ ',' :: ' ' :: encItems rest

/-- Model of `json.dumps` on a list of strings. -/
def dumpsStrList (l : List String) : String :=
  String.mk ('[' :: (encItems l ++ [']']))

/-- The two-character escapes accepted by Python's (strict) JSON decoder. -/
def escDecode (e : Char) : Option Char :=
  if e = '"' then some '"'
  else if e = '\\' then some '\\'
  else if e = '/' then some '/'
  else if e = 'b' then some (Char.ofNat 8)
  else if e = 'f' then some (Char.ofNat 12)
  else if e = 'n' then some '\n'
  else if e = 'r' then some '\r'
  else if e = 't' then some '\t'
  else none

/-- The low half of a surrogate-pair escape: after a high surrogate
`\uXXXX`, `json.loads` expects another `\uXXXX` in the low range and
combines the two into one character.  `n` is the high surrogate value. -/
def parseLowSur (n : Nat) : List Char → Option (Char × List Char)
  | '\\' :: 'u' :: a2 :: b2 :: c3 :: d2 :: r5 =>
    match hex4val a2 b2 c3 d2 with
    | none => none
    | some m =>
      if 0xdc00 ≤ m ∧ m < 0xe000 then
        some (Char.ofNat (0x10000 + (n - 0xd800) * 0x400 + (m - 0xdc00)), r5)
      else none
  | _ => none

/-- One escape sequence after a backslash, as `json.loads` scans it: a
short escape, or a `\uXXXX` group with surrogate-pair combination.  Lone
surrogate escapes are rejected (Lean's `Char` cannot hold them; the encoder
never produces them). Returns the decoded character and the remaining
input. -/
def parseEsc : List Char → Option (Char × List Char)
  | [] => none
  | 'u' :: a :: b :: c2 :: d :: r3 =>
    match hex4val a b c2 d with
    | none => none
    | some n =>
      if 0xd800 ≤ n ∧ n < 0xdc00 then parseLowSur n r3
      else if 0xdc00 ≤ n ∧ n < 0xe000 then none
      else some (Char.ofNat n, r3)
  | e :: r2 =>
    if e = 'u' then none
    else
      match escDecode e with
      | none => none
      | some ch => some (ch, r2)

/-- Body of a JSON string literal after the opening quote, as `json.loads`
scans it: literal characters (raw control characters rejected, strict mode)
and backslash escapes, up to the closing quote.  Fuelled to make termination
evident; the fuel `parseJsonString` passes always suffices.  Returns the
decoded characters and the input after the closing quote. -/
def parseStringBody : Nat → List Char → Option (List Char × List Char)
  | 0, _ => none
  | _ + 1, [] => none
  | fuel + 1, c :: r =>
    if c = '"' then some ([], r)
    else if c = '\\' then
      match parseEsc r with
      | none => none
      | some q =>
        match parseStringBody fuel q.2 with
        | none => none
        | some p => some (q.1 :: p.1, p.2)
    else if c.toNat < 0x20 then none
    else
      match parseStringBody fuel r with
      | none => none
      | some p => some (c :: p.1, p.2)

/-- A JSON string literal with its opening quote.  The body scan consumes at
least one character per step, so the length of the rest is enough fuel. -/
def parseJsonString (l : List Char) : Option (String × List Char) :=
  match l with
  | [] => none
  | c :: r =>
    if c = '"' then
      match parseStringBody r.length r with
      | none => none
      | some p => some (String.mk p.1, p.2)
    else none

/-- Items of a JSON array of strings after the opening bracket; fuelled to
make termination evident (the fuel passed by `parseStrList` always
suffices). -/
def parseItems : Nat → List Char → Option (List String × List Char)
  | 0, _ => none
  | Nat.succ fuel, l =>
    match skipWs l with
    | [] => none
    | c :: r =>
      if c = ']' then some ([], r)
      else
        match parseJsonString (c :: r) with
        | none => none
        | some (s, r1) =>
          match skipWs r1 with
          | [] => none
          | c2 :: r2 =>
            if c2 = ',' then
              match parseItems fuel r2 with
              | none => none
              | some (xs, r3) => some (s :: xs, r3)
            else if c2 = ']' then some ([s], r2)
            else none

/-- A whole JSON document that must be an array of strings: optional
whitespace, the bracketed items, and nothing but whitespace after. -/
def parseTop (fuel : Nat) (l : List Char) : Option (List String) :=
  match skipWs l with
  | [] => none
  | c :: r =>
    if c = '[' then
      match parseItems fuel r with
      | none => none
      | some (xs, rest) =>
        match skipWs rest with
        | [] => some xs
        | _ => none
    else none

/-- Model of `json.loads` restricted to arrays of strings — the only shape
this program ever stores in the `tags`/`benefits` columns. Any other input is
a decode failure.  Each array item consumes at least one character, so the
input length is enough fuel. -/
def parseStrList (s : String) : Option (List String) :=
  parseTop (s.data.length + 1) s.data

/-- One stored row of the `jobs` table, in schema column order.  `remote` is
stored from a Python `bool`; `tags`/`benefits` are nullable TEXT columns
holding `json.dumps` output. -/
structure Row where
  id : Nat
  title : String
  company : String
  location : String
  salary : String
  experience : String
  job_type : String
  remote : Bool
  tags : Option String
  description : String
  posted_date : String
  benefits : Option String
  applications_count : Nat
deriving DecidableEq

/-- One decoded job object as `get_jobs` serializes it into the response. -/
structure Job where
  id : Nat
  title : String
  company : String
  location : String
  salary : String
  experience : String
  job_type : String
  remote : Bool
  tags : List String
  description : String
  benefits : List String
  posted_date : String
  applications_count : Nat
deriving DecidableEq

/-- Query parameters of `GET /api/jobs`; `none` is an absent parameter. -/
structure Filters where
  title : Option String := none
  location : Option String := none
  experience : Option String := none
  remote : Option String := none
  job_type : Option String := none
deriving DecidableEq

/-- The database: stored rows plus the AUTOINCREMENT counter for `id`. -/
structure State where
  rows : List Row
  nextId : Nat
deriving DecidableEq

/-- A fresh database file: empty table, ids starting at 1. -/
def emptyState : State := { rows := [], nextId := 1 }

/-- `init_db` only issues `CREATE TABLE IF NOT EXISTS`; it never drops or
alters rows. -/
def init_db (s : State) : State := s

/-- Python `row['tags'] or '[]'`: `None` and the empty string fall back to
the empty JSON array. -/
def pyOr (t : Option String) : String :=
  match t with
  | none => "[]"
  | some s => if s = "" then "[]" else s

/-- Build the response dict for one row, as the loop body of `get_jobs`
does; a JSON decode error in `tags`/`benefits` aborts the request. -/
def decodeRow (r : Row) : Option Job :=
  match parseStrList (pyOr r.tags), parseStrList (pyOr r.benefits) with
  | some tg, some bf =>
    some { id := r.id, title := r.title, company := r.company,
           location := r.location, salary := r.salary,
           experience := r.experience, job_type := r.job_type,
           remote := r.remote, tags := tg, description := r.description,
           benefits := bf, posted_date := r.posted_date,
           applications_count := r.applications_count }
  | _, _ => none

/-- Decode every row in order (any failure fails the request). -/
def decodeAll : List Row → Option (List Job)
  | [] => some []
  | r :: rs =>
    match decodeRow r, decodeAll rs with
    | some j, some js => some (j :: js)
    | _, _ => none

/-- The `remote` conjunct of the filter in `get_jobs`:
`remote is not None and job['remote'] != (remote.lower() == 'true')`. -/
def remotePred (rv : Option String) (j : Job) : Bool :=
  match rv with
  | none => true
  | some v => j.remote == (lowerStr v == "true")

/-- The full filter predicate of `get_jobs`, one conjunct per `continue`
guard; string parameters default to `''` and an empty string disables the
conjunct. -/
def codeKeep (f : Filters) (j : Job) : Bool :=
  (lowerStr (f.title.getD "") == "" ||
    strIn (lowerStr (f.title.getD "")) (lowerStr j.title)) &&
  (lowerStr (f.location.getD "") == "" ||
    strIn (lowerStr (f.location.getD "")) (lowerStr j.location)) &&
  (f.experience.getD "" == "" || f.experience.getD "" == j.experience) &&
  remotePred f.remote j &&
  (f.job_type.getD "" == "" || f.job_type.getD "" == j.job_type)

/-- Spec-side conjunct: a supplied value must occur case-insensitively in
the field, an absent one does not constrain. -/
def suppliedSub (t : Option String) (x : String) : Bool :=
  match t with
  | none => true
  | some v => strIn (lowerStr v) x

/-- Spec-side conjunct: a supplied value must equal the field exactly, an
absent one does not constrain. -/
def suppliedEq (e : Option String) (x : String) : Bool :=
  match e with
  | none => true
  | some v => v == x

/-- Spec-side conjunct: the field must equal the boolean the supplied value
denotes (`true` case-insensitively), an absent one does not constrain. -/
def suppliedRemote (rv : Option String) (b : Bool) : Bool :=
  match rv with
  | none => true
  | some v => b == (lowerStr v == "true")

/-- The filter predicate exactly as the spec words it: every supplied
parameter constrains — title/location case-insensitive substring,
experience/job_type exact equality, remote boolean equality. -/
def specKeep (f : Filters) (j : Job) : Bool :=
  suppliedSub f.title (lowerStr j.title) &&
  suppliedSub f.location (lowerStr j.location) &&
  suppliedEq f.experience j.experience &&
  suppliedRemote f.remote j.remote &&
  suppliedEq f.job_type j.job_type

/-- Lexicographic less-or-equal on character lists, the order SQLite's
BINARY collation gives TEXT values (byte order on UTF-8 agrees with
codepoint order). -/
def leCL : List Char → List Char → Bool
  | [], _ => true
  | _ :: _, [] => false
  | a :: as, b :: bs => if a < b then true else if b < a then false else leCL as bs

/-- Lexicographic less-or-equal on strings, executable form. -/
def strLeB (a b : String) : Bool := leCL a.data b.data

/-- Order used by `ORDER BY posted_date DESC`: later date string first. -/
def rowOrder (a b : Row) : Prop := strLeB b.posted_date a.posted_date = true

instance : DecidableRel rowOrder :=
  fun _ _ => inferInstanceAs (Decidable (_ = true))

/-- The row order produced by `SELECT * FROM jobs ORDER BY posted_date
DESC`. -/
def sortRows (l : List Row) : List Row := List.insertionSort rowOrder l

/-- The row loop of `get_jobs`: decode each row, keep it when every filter
conjunct passes. -/
def getJobsLoop (f : Filters) : List Row → Option (List Job)
  | [] => some []
  | r :: rs =>
    match decodeRow r, getJobsLoop f rs with
    | some j, some rest => some (if codeKeep f j then j :: rest else rest)
    | _, _ => none

/-- `GET /api/jobs`: fetch ordered rows, decode, filter, return the data and
its count; `none` is the 500 error envelope. -/
def get_jobs (f : Filters) (s : State) : Option (List Job × Nat) :=
  match getJobsLoop f (sortRows s.rows) with
  | none => none
  | some js => some (js, js.length)

/-- JSON envelope of `POST /api/jobs/id/apply`. -/
structure ApplyResponse where
  status : Nat
  success : Bool
  message : Option String
  error : Option String
deriving DecidableEq

/-- The 200 envelope of a successful application. -/
def applySuccessResp : ApplyResponse :=
  { status := 200, success := true,
    message := some "Application submitted successfully", error := none }

/-- The 404 envelope for an unknown job id. -/
def jobNotFoundResp : ApplyResponse :=
  { status := 404, success := false, message := none,
    error := some "Job not found" }

/-- Effect of `UPDATE jobs SET applications_count = applications_count + 1
WHERE id = ?` on one row. -/
def bumpIf (jid : Nat) (r : Row) : Row :=
  if r.id = jid then
    { r with applications_count := r.applications_count + 1 }
  else r

/-- `POST /api/jobs/id/apply`: existence check, then the counter
increment. -/
def apply_to_job (jid : Nat) (s : State) : State × ApplyResponse :=
  if s.rows.any (fun r => r.id == jid) then
    ({ s with rows := s.rows.map (bumpIf jid) }, applySuccessResp)
  else (s, jobNotFoundResp)

/-- `n` successive calls of `apply_to_job` on the same id. -/
def applyN (jid : Nat) : Nat → State → State
  | 0, s => s
  | Nat.succ n, s => applyN jid n (apply_to_job jid s).1

/-- The three fixed sample records of `seed_sample_data`, with the ids the
AUTOINCREMENT column assigns from `startId`; `tags`/`benefits` hold the
`json.dumps` of the literal lists. -/
def sampleRows (startId : Nat) : List Row :=
  [{ id := startId, title := "Senior Software Engineer", company := "META",
     location := "Bengaluru, KA", salary := "$120,000 - $180,000",
     experience := "senior", job_type := "full time", remote := true,
     tags := some (dumpsStrList ["Python", "React", "AWS", "Machine Learning"]),
     description := "Join our innovative team building next-gen AI solutions.",
     posted_date := "2024-08-10",
     benefits := some (dumpsStrList
       ["Health Insurance", "401k", "Stock Options", "Unlimited PTO"]),
     applications_count := 0 },
   { id := startId + 1, title := "Frontend Developer", company := "GOOGLE",
     location := "New Delhi, DL", salary := "$90,000 - $130,000",
     experience := "mid", job_type := "full time", remote := false,
     tags := some (dumpsStrList ["JavaScript", "Vue.js", "CSS", "Node.js"]),
     description := "Build beautiful, responsive web applications.",
     posted_date := "2024-08-12",
     benefits := some (dumpsStrList
       ["Health Insurance", "Flexible Hours", "Learning Budget"]),
     applications_count := 0 },
   { id := startId + 2, title := "DevOps Engineer", company := "MICROSOFT",
     location := "New Delhi, DL", salary := "$100,000 - $150,000",
     experience := "mid", job_type := "contract", remote := true,
     tags := some (dumpsStrList ["Docker", "Kubernetes", "CI/CD", "Terraform"]),
     description := "Manage cloud infrastructure and deployment pipelines.",
     posted_date := "2024-08-11",
     benefits := some (dumpsStrList ["High Hourly Rate", "Flexible Schedule"]),
     applications_count := 0 }]

/-- `seed_sample_data`: insert the three fixed records only when the table
is empty. -/
def seed_sample_data (s : State) : State :=
  if s.rows.length == 0 then
    { rows := s.rows ++ sampleRows s.nextId, nextId := s.nextId + 3 }
  else s

/-- Run the seeder `n` times. -/
def seedIter : Nat → State → State
  | 0, s => s
  | Nat.succ n, s => seedIter n (seed_sample_data s)

/-- The database right after startup: `init_db` then `seed_sample_data`. -/
def seededState : State := seed_sample_data (init_db emptyState)

/-- No query parameters supplied. -/
def noFilters : Filters := {}

/-- One request to the backend, for stating cross-request invariants. -/
inductive Op where
  | initOp : Op
  | seedOp : Op
  | listOp : Filters → Op
  | applyOp : Nat → Op
  | healthOp : Op
  | homeOp : Op

/-- State transition of one request: only the seeder and the apply counter
write; `get_jobs`, the health probe and the home route are read-only. -/
def step (s : State) : Op → State
  | Op.initOp => init_db s
  | Op.seedOp => seed_sample_data s
  | Op.listOp _ => s
  | Op.applyOp jid => (apply_to_job jid s).1
  | Op.healthOp => s
  | Op.homeOp => s

/-- Run a sequence of requests. -/
def run (s : State) : List Op → State
  | [] => s
  | op :: ops => run (step s op) ops

/-- A row with its counter zeroed: two rows with equal `stripCount` agree on
`id` and on every other column except `applications_count`. -/
def stripCount (r : Row) : Row := { r with applications_count := 0 }

/-- A one-row store used to exercise the theorems on concrete input. -/
def cexRow : Row :=
  { id := 1, title := "A", company := "B", location := "C", salary := "",
    experience := "senior", job_type := "full time", remote := true,
    tags := none, description := "", posted_date := "2024-01-01",
    benefits := none, applications_count := 0 }

/-- Store holding only `cexRow`. -/
def cexState : State := { rows := [cexRow], nextId := 2 }

/-- The decoded form of `cexRow`. -/
def cexJob : Job :=
  { id := 1, title := "A", company := "B", location := "C", salary := "",
    experience := "senior", job_type := "full time", remote := true,
    tags := [], description := "", benefits := [],
    posted_date := "2024-01-01", applications_count := 0 }

/-- An `experience` filter supplied as the empty string. -/
def cexEmptyExpF : Filters := { experience := some "" }

/-- An `experience` filter supplied as `senior`. -/
def cexSeniorF : Filters := { experience := some "senior" }

/-- The listing the seeded store answers with no filters. -/
def seededListing : List Job × Nat :=
  (get_jobs noFilters seededState).getD ([], 0)

/-- The decoded Frontend Developer posting of the seeded store. -/
def frontendJob : Job :=
  { id := 2, title := "Frontend Developer", company := "GOOGLE",
    location := "New Delhi, DL", salary := "$90,000 - $130,000",
    experience := "mid", job_type := "full time", remote := false,
    tags := ["JavaScript", "Vue.js", "CSS", "Node.js"],
    description := "Build beautiful, responsive web applications.",
    benefits := ["Health Insurance", "Flexible Hours", "Learning Budget"],
    posted_date := "2024-08-12", applications_count := 0 }

/-- The empty needle occurs in every string. -/
theorem containsSub_nil (l : List Char) : containsSub [] l = true := by
  cases l <;> rfl

/-- Python `'' in s` is always true. -/
theorem strIn_empty (x : String) : strIn "" x = true :=
  containsSub_nil x.data

/-- The guard `title and title not in ...` keeps a row exactly when the
substring test passes, because the empty filter matches everything. -/
theorem beq_empty_or (y x : String) : (y == "" || strIn y x) = strIn y x := by
  cases h : y == "" with
  | false => rw [Bool.false_or]
  | true =>
    have hy : y = "" := eq_of_beq h
    subst hy
    rw [strIn_empty, Bool.true_or]

/-- The list order is the negation of the reverse strict order. -/
theorem le_CL_iff (l1 l2 : List Char) : l1 ≤ l2 ↔ ¬ l2 < l1 := not_lt.symm

/-- The executable lexicographic comparison agrees with the lexicographic
order on character lists. -/
theorem leCL_iff_le (l1 l2 : List Char) : leCL l1 l2 = true ↔ l1 ≤ l2 := by
  induction l1 generalizing l2 with
  | nil =>
    rw [le_CL_iff]
    constructor
    · intro _ h
      cases h
    · intro _
      rfl
  | cons a as ih =>
    cases l2 with
    | nil =>
      rw [leCL, le_CL_iff]
      constructor
      · intro h
        exact absurd h (by decide)
      · intro h
        exact absurd List.Lex.nil h
    | cons b bs =>
      rw [le_CL_iff]
      by_cases hab : a < b
      · rw [leCL, if_pos hab]
        constructor
        · intro _ h
          cases h with
          | cons h' => exact absurd hab (lt_irrefl _)
          | rel h' => exact absurd hab (Char.lt_asymm h')
        · intro _
          rfl
      · by_cases hba : b < a
        · rw [leCL, if_neg hab, if_pos hba]
          constructor
          · intro h
            exact absurd h (by decide)
          · intro h
            exact absurd (List.Lex.rel hba) h
        · have hEq : a = b :=
            Char.ext (UInt32.le_antisymm (Char.not_lt.mp hba) (Char.not_lt.mp hab))
          subst hEq
          rw [leCL, if_neg hab, if_neg hba, ih bs, le_CL_iff]
          constructor
          · intro h hlt
            cases hlt with
            | cons h' => exact h h'
            | rel h' => exact absurd h' hab
          · intro h hlt
            exact h (List.Lex.cons hlt)

/-- The executable comparison agrees with the string order: plain
lexicographic string comparison. -/
theorem strLeB_iff_le (a b : String) : strLeB a b = true ↔ a ≤ b := by
  rw [String.le_iff_toList_le]
  exact leCL_iff_le a.data b.data

/-- `rowOrder` compares the stored `posted_date` strings, later first. -/
theorem rowOrder_iff (a b : Row) :
    rowOrder a b ↔ b.posted_date ≤ a.posted_date :=
  strLeB_iff_le _ _

/-- `rowOrder` is total. -/
theorem rowOrder_total : IsTotal Row rowOrder := by
  refine ⟨fun a b => ?_⟩
  rcases le_total b.posted_date a.posted_date with h | h
  · exact Or.inl ((rowOrder_iff a b).mpr h)
  · exact Or.inr ((rowOrder_iff b a).mpr h)

/-- `rowOrder` is transitive. -/
theorem rowOrder_trans : IsTrans Row rowOrder := by
  refine ⟨fun a b c h1 h2 => ?_⟩
  rw [rowOrder_iff] at h1 h2 ⊢
  exact le_trans h2 h1

/-- Sorting permutes the rows. -/
theorem sortRows_perm (l : List Row) : List.Perm (sortRows l) l :=
  List.perm_insertionSort _ l

/-- The sorted rows are pairwise in descending `posted_date` order. -/
theorem sortRows_sorted (l : List Row) : (sortRows l).Pairwise rowOrder := by
  haveI := rowOrder_total
  haveI := rowOrder_trans
  exact List.sorted_insertionSort rowOrder l

/-- Title/location conjunct of the code versus the supplied-filter form. -/
theorem titleConj (t : Option String) (x : String) :
    (lowerStr (t.getD "") == "" || strIn (lowerStr (t.getD "")) x) =
      suppliedSub t x := by
  cases t with
  | none => rfl
  | some v => exact beq_empty_or (lowerStr v) x

/-- Experience/job_type conjunct of the code versus the supplied-filter
form, valid when the supplied value is nonempty. -/
theorem exactConj (e : Option String) (x : String) (he : e ≠ some "") :
    (e.getD "" == "" || e.getD "" == x) = suppliedEq e x := by
  cases e with
  | none => rfl
  | some v =>
    have hv : v ≠ "" := fun h => he (by rw [h])
    simp only [Option.getD_some, suppliedEq]
    rw [beq_eq_false_iff_ne.mpr hv, Bool.false_or]

/-- The remote conjunct is already the spec's boolean-equality conjunct. -/
theorem remotePred_eq (rv : Option String) (j : Job) :
    remotePred rv j = suppliedRemote rv j.remote := by
  cases rv <;> rfl

/-- When the experience and job_type filters are not supplied as empty
strings, the code's filter predicate is exactly the spec's conjunctive
predicate. -/
theorem keep_eq_spec (f : Filters) (j : Job) (he : f.experience ≠ some "")
    (hj : f.job_type ≠ some "") : codeKeep f j = specKeep f j := by
  simp only [codeKeep, specKeep]
  rw [titleConj, titleConj, exactConj _ _ he, exactConj _ _ hj, remotePred_eq]

/-- The row loop decodes every row and filters by the code predicate. -/
theorem getJobsLoop_eq (f : Filters) (rs : List Row) :
    getJobsLoop f rs =
      (decodeAll rs).map (fun js => js.filter (codeKeep f)) := by
  induction rs with
  | nil => rfl
  | cons r rs ih =>
    simp only [getJobsLoop, decodeAll, ih]
    cases hd : decodeRow r with
    | none => rfl
    | some j =>
      cases ha : decodeAll rs with
      | none => rfl
      | some js => simp [List.filter_cons]

/-- Characterization of a successful `GET /api/jobs`: every stored row
decodes, the data is the filtered decode of the sorted rows, and the count
is the length of the data. -/
theorem get_jobs_eq (f : Filters) (s : State) (data : List Job) (c : Nat)
    (h : get_jobs f s = some (data, c)) :
    ∃ all, decodeAll (sortRows s.rows) = some all ∧
      data = all.filter (codeKeep f) ∧ c = data.length := by
  unfold get_jobs at h
  rw [getJobsLoop_eq] at h
  cases ha : decodeAll (sortRows s.rows) with
  | none => rw [ha] at h; simp at h
  | some all =>
    rw [ha] at h
    simp only [Option.map_some', Option.some.injEq, Prod.mk.injEq] at h
    exact ⟨all, rfl, h.1.symm, by rw [← h.1, ← h.2]⟩

/-- Every row of a successfully decoded list contributes its decode. -/
theorem decodeAll_mem {rs : List Row} {js : List Job}
    (h : decodeAll rs = some js) {r : Row} (hr : r ∈ rs) :
    ∃ j ∈ js, decodeRow r = some j := by
  induction rs generalizing js with
  | nil => cases hr
  | cons r0 rs ih =>
    rw [decodeAll] at h
    cases hd : decodeRow r0 with
    | none => rw [hd] at h; cases h
    | some j0 =>
      rw [hd] at h
      cases ha : decodeAll rs with
      | none => rw [ha] at h; cases h
      | some js0 =>
        rw [ha] at h
        obtain rfl := Option.some.inj h
        cases hr with
        | head => exact ⟨j0, List.mem_cons_self _ _, hd⟩
        | tail _ hmem =>
          obtain ⟨j, hj, hdj⟩ := ih ha hmem
          exact ⟨j, List.mem_cons_of_mem _ hj, hdj⟩

/-- Every decoded job comes from some stored row. -/
theorem decodeAll_mem_rev {rs : List Row} {js : List Job}
    (h : decodeAll rs = some js) {j : Job} (hj : j ∈ js) :
    ∃ r ∈ rs, decodeRow r = some j := by
  induction rs generalizing js with
  | nil =>
    rw [decodeAll] at h
    obtain rfl := Option.some.inj h
    cases hj
  | cons r0 rs ih =>
    rw [decodeAll] at h
    cases hd : decodeRow r0 with
    | none => rw [hd] at h; cases h
    | some j0 =>
      rw [hd] at h
      cases ha : decodeAll rs with
      | none => rw [ha] at h; cases h
      | some js0 =>
        rw [ha] at h
        obtain rfl := Option.some.inj h
        cases hj with
        | head => exact ⟨r0, List.mem_cons_self _ _, hd⟩
        | tail _ hmem =>
          obtain ⟨r, hr, hdr⟩ := ih ha hmem
          exact ⟨r, List.mem_cons_of_mem _ hr, hdr⟩

/-- Decoding copies `id`, `posted_date`, `applications_count` and `remote`
from the row. -/
theorem decodeRow_fields {r : Row} {j : Job} (h : decodeRow r = some j) :
    j.id = r.id ∧ j.posted_date = r.posted_date ∧
      j.applications_count = r.applications_count ∧ j.remote = r.remote := by
  unfold decodeRow at h
  split at h
  · obtain rfl := Option.some.inj h
    exact ⟨rfl, rfl, rfl, rfl⟩
  · cases h

/-- Decoding transports the descending `posted_date` relation from rows to
jobs. -/
theorem decodeAll_pairwise {rs : List Row} {js : List Job}
    (h : decodeAll rs = some js) (hp : rs.Pairwise rowOrder) :
    js.Pairwise (fun a b => b.posted_date ≤ a.posted_date) := by
  induction rs generalizing js with
  | nil =>
    rw [decodeAll] at h
    obtain rfl := Option.some.inj h
    exact List.Pairwise.nil
  | cons r0 rs ih =>
    rw [decodeAll] at h
    cases hd : decodeRow r0 with
    | none => rw [hd] at h; cases h
    | some j0 =>
      rw [hd] at h
      cases ha : decodeAll rs with
      | none => rw [ha] at h; cases h
      | some js0 =>
        rw [ha] at h
        obtain rfl := Option.some.inj h
        rw [List.pairwise_cons] at hp ⊢
        obtain ⟨hhead, htail⟩ := hp
        refine ⟨?_, ih ha htail⟩
        intro b hb
        obtain ⟨r', hr', hdr'⟩ := decodeAll_mem_rev ha hb
        have ho : rowOrder r0 r' := hhead r' hr'
        rw [(decodeRow_fields hd).2.1, (decodeRow_fields hdr').2.1]
        exact (rowOrder_iff _ _).mp ho

/-- With no filters supplied every decoded job is kept. -/
theorem noFilters_keep (j : Job) : codeKeep noFilters j = true := rfl

/-- The loop result depends on the filters only through the predicate. -/
theorem getJobsLoop_congr (f₁ f₂ : Filters)
    (hk : ∀ j, codeKeep f₁ j = codeKeep f₂ j) (rs : List Row) :
    getJobsLoop f₁ rs = getJobsLoop f₂ rs := by
  induction rs with
  | nil => rfl
  | cons r rs ih => simp only [getJobsLoop, ih, hk]

/-- The whole listing depends on the filters only through the predicate. -/
theorem get_jobs_congr (f₁ f₂ : Filters)
    (hk : ∀ j, codeKeep f₁ j = codeKeep f₂ j) (s : State) :
    get_jobs f₁ s = get_jobs f₂ s := by
  unfold get_jobs
  rw [getJobsLoop_congr f₁ f₂ hk]

/-- A kept job passes every conjunct; in particular the remote conjunct. -/
theorem codeKeep_remote {f : Filters} {j : Job} (h : codeKeep f j = true) :
    remotePred f.remote j = true := by
  simp only [codeKeep, Bool.and_eq_true] at h
  exact h.1.2

/-- `bumpIf` never changes the id. -/
theorem bumpIf_id (jid : Nat) (r : Row) : (bumpIf jid r).id = r.id := by
  unfold bumpIf
  split <;> rfl

/-- `bumpIf` on the matching row adds exactly one. -/
theorem bumpIf_hit (jid : Nat) (r : Row) (h : r.id = jid) :
    bumpIf jid r = { r with applications_count := r.applications_count + 1 } := by
  unfold bumpIf
  rw [if_pos h]

/-- `bumpIf` on any other row is the identity. -/
theorem bumpIf_miss (jid : Nat) (r : Row) (h : r.id ≠ jid) :
    bumpIf jid r = r := by
  unfold bumpIf
  rw [if_neg h]

/-- The existence check succeeds exactly when some row has the id. -/
theorem rows_any_iff (s : State) (jid : Nat) :
    s.rows.any (fun r => r.id == jid) = true ↔ ∃ r ∈ s.rows, r.id = jid := by
  rw [List.any_eq_true]
  constructor
  · rintro ⟨r, hr, hb⟩
    exact ⟨r, hr, by simpa using hb⟩
  · rintro ⟨r, hr, hb⟩
    exact ⟨r, hr, by simpa using hb⟩

/-- On an existing id, `apply_to_job` succeeds and maps `bumpIf` over the
rows. -/
theorem apply_hit (s : State) (jid : Nat) (h : ∃ r ∈ s.rows, r.id = jid) :
    apply_to_job jid s =
      ({ s with rows := s.rows.map (bumpIf jid) }, applySuccessResp) := by
  unfold apply_to_job
  rw [if_pos ((rows_any_iff s jid).mpr h)]

/-- The counter update keeps every other column. -/
theorem stripCount_bumpIf (jid : Nat) (r : Row) :
    stripCount (bumpIf jid r) = stripCount r := by
  unfold bumpIf stripCount
  split <;> rfl

/-- One request keeps every stored row in place, with all columns except the
counter unchanged and the counter not decreased. -/
theorem step_preserve (s : State) (op : Op) (i : Nat) (r : Row)
    (h : s.rows[i]? = some r) :
    ∃ r', (step s op).rows[i]? = some r' ∧ stripCount r' = stripCount r ∧
      r.applications_count ≤ r'.applications_count := by
  cases op with
  | initOp => exact ⟨r, h, rfl, le_refl _⟩
  | listOp f => exact ⟨r, h, rfl, le_refl _⟩
  | healthOp => exact ⟨r, h, rfl, le_refl _⟩
  | homeOp => exact ⟨r, h, rfl, le_refl _⟩
  | seedOp =>
    show ∃ r', (seed_sample_data s).rows[i]? = some r' ∧ _ ∧ _
    unfold seed_sample_data
    split
    · next hlen =>
      rw [List.length_eq_zero.mp (eq_of_beq hlen)] at h
      simp at h
    · exact ⟨r, h, rfl, le_refl _⟩
  | applyOp jid =>
    show ∃ r', (apply_to_job jid s).1.rows[i]? = some r' ∧ _ ∧ _
    unfold apply_to_job
    split
    · refine ⟨bumpIf jid r, ?_, stripCount_bumpIf jid r, ?_⟩
      · show (s.rows.map (bumpIf jid))[i]? = some (bumpIf jid r)
        rw [List.getElem?_map, h]
        rfl
      · unfold bumpIf
        split
        · exact Nat.le_succ _
        · exact le_refl _
    · exact ⟨r, h, rfl, le_refl _⟩

/-- `step_preserve`, extended over a whole request sequence. -/
theorem run_preserve (ops : List Op) (s : State) (i : Nat) (r : Row)
    (h : s.rows[i]? = some r) :
    ∃ r', (run s ops).rows[i]? = some r' ∧ stripCount r' = stripCount r ∧
      r.applications_count ≤ r'.applications_count := by
  induction ops generalizing s r with
  | nil => exact ⟨r, h, rfl, le_refl _⟩
  | cons op ops ih =>
    obtain ⟨r1, h1, hs1, hc1⟩ := step_preserve s op i r h
    obtain ⟨r2, h2, hs2, hc2⟩ := ih (step s op) r1 h1
    exact ⟨r2, h2, hs2.trans hs1, le_trans hc1 hc2⟩

/-- No request other than the apply counter ever changes a stored
`applications_count`. -/
theorem step_counts (s : State) (op : Op) (hop : ∀ jid, op ≠ Op.applyOp jid)
    (i : Nat) (r r' : Row) (h : s.rows[i]? = some r)
    (h' : (step s op).rows[i]? = some r') :
    r'.applications_count = r.applications_count := by
  cases op with
  | applyOp jid => exact absurd rfl (hop jid)
  | seedOp =>
    replace h' : (seed_sample_data s).rows[i]? = some r' := h'
    unfold seed_sample_data at h'
    split at h'
    · next hlen =>
      rw [List.length_eq_zero.mp (eq_of_beq hlen)] at h
      simp at h
    · rw [h] at h'
      obtain rfl := Option.some.inj h'
      rfl
  | initOp =>
    replace h' : s.rows[i]? = some r' := h'
    rw [h] at h'
    obtain rfl := Option.some.inj h'
    rfl
  | listOp f =>
    replace h' : s.rows[i]? = some r' := h'
    rw [h] at h'
    obtain rfl := Option.some.inj h'
    rfl
  | healthOp =>
    replace h' : s.rows[i]? = some r' := h'
    rw [h] at h'
    obtain rfl := Option.some.inj h'
    rfl
  | homeOp =>
    replace h' : s.rows[i]? = some r' := h'
    rw [h] at h'
    obtain rfl := Option.some.inj h'
    rfl

/-- The apply counter changes a stored row only when the id matches, and
then only by adding one. -/
theorem step_apply (s : State) (jid : Nat) (i : Nat) (r r' : Row)
    (h : s.rows[i]? = some r)
    (h' : (step s (Op.applyOp jid)).rows[i]? = some r') :
    r' = r ∨ (r.id = jid ∧
      r' = { r with applications_count := r.applications_count + 1 }) := by
  replace h' : (apply_to_job jid s).1.rows[i]? = some r' := h'
  unfold apply_to_job at h'
  split at h'
  · replace h' : (s.rows.map (bumpIf jid))[i]? = some r' := h'
    rw [List.getElem?_map, h] at h'
    obtain rfl := Option.some.inj h'
    unfold bumpIf
    split
    · next hid => exact Or.inr ⟨hid, rfl⟩
    · exact Or.inl rfl
  · replace h' : s.rows[i]? = some r' := h'
    rw [h] at h'
    obtain rfl := Option.some.inj h'
    exact Or.inl rfl

/-- `n` applications on an existing id add exactly `n` to that row's counter
and change nothing else. -/
theorem applyN_rows (jid : Nat) (n : Nat) :
    ∀ s : State, (∃ r ∈ s.rows, r.id = jid) →
    (applyN jid n s).rows = s.rows.map
      (fun r => if r.id = jid then
        { r with applications_count := r.applications_count + n } else r) := by
  induction n with
  | zero =>
    intro s _
    rw [applyN]
    have hfun : (fun r : Row => if r.id = jid then
        { r with applications_count := r.applications_count + 0 } else r) = id := by
      funext r
      split <;> rfl
    rw [hfun, List.map_id]
  | succ n ih =>
    intro s h
    rw [applyN]
    have h1 : (apply_to_job jid s).1.rows = s.rows.map (bumpIf jid) := by
      rw [apply_hit s jid h]
    have hex : ∃ r ∈ (apply_to_job jid s).1.rows, r.id = jid := by
      obtain ⟨r0, hr0, hid⟩ := h
      refine ⟨bumpIf jid r0, ?_, ?_⟩
      · rw [h1]
        exact List.mem_map_of_mem _ hr0
      · rw [bumpIf_id]
        exact hid
    rw [ih _ hex, h1, List.map_map]
    have hfun : ((fun r : Row => if r.id = jid then
          { r with applications_count := r.applications_count + n } else r)
            ∘ bumpIf jid) =
        (fun r : Row => if r.id = jid then
          { r with applications_count := r.applications_count + (n + 1) }
        else r) := by
      funext r
      simp only [Function.comp_apply]
      by_cases hid : r.id = jid
      · rw [bumpIf_hit jid r hid,
          if_pos (show ({ r with applications_count :=
            r.applications_count + 1 } : Row).id = jid from hid),
          if_pos hid]
        show ({ r with applications_count :=
          r.applications_count + 1 + n } : Row) =
          { r with applications_count := r.applications_count + (n + 1) }
        rw [Nat.add_assoc, Nat.add_comm 1 n]
      · rw [bumpIf_miss jid r hid, if_neg hid, if_neg hid]
    rw [hfun]

/-- Seeding a fresh store inserts exactly the three fixed records with ids
1, 2, 3. -/
theorem seed_empty :
    seed_sample_data emptyState = { rows := sampleRows 1, nextId := 4 } := rfl

/-- Seeding a non-empty store is a no-op. -/
theorem seed_nonempty (s : State) (h : s.rows ≠ []) :
    seed_sample_data s = s := by
  unfold seed_sample_data
  rw [if_neg]
  intro hb
  exact h (List.length_eq_zero.mp (eq_of_beq hb))

/-- The seeded rows are a fixed point of the seeder. -/
theorem seedIter_fixed (n : Nat) : ∀ s : State, s.rows = sampleRows 1 →
    (seedIter n s).rows = sampleRows 1 := by
  induction n with
  | zero => intro s h; exact h
  | succ n ih =>
    intro s h
    rw [seedIter, seed_nonempty s (by rw [h]; simp [sampleRows])]
    exact ih s h

/-- Decoding a hex digit undoes encoding one. -/
theorem hexVal_toHexDigit (n : Nat) (h : n < 16) :
    hexVal (toHexDigit n) = some n := by
  interval_cases n <;> decide

/-- Decoding four hex digits undoes encoding a 16-bit value. -/
theorem hex4val_hex4 (n : Nat) (h : n < 65536) :
    hex4val (toHexDigit (n / 4096)) (toHexDigit (n / 256 % 16))
      (toHexDigit (n / 16 % 16)) (toHexDigit (n % 16)) = some n := by
  unfold hex4val
  rw [hexVal_toHexDigit _ (by omega), hexVal_toHexDigit _ (by omega),
    hexVal_toHexDigit _ (by omega), hexVal_toHexDigit _ (by omega)]
  show some (n / 4096 * 4096 + n / 256 % 16 * 256 + n / 16 % 16 * 16 + n % 16)
    = some n
  congr 1
  omega

/-- Every `Char` codepoint is a valid scalar value. -/
theorem char_valid (c : Char) :
    c.toNat < 0xd800 ∨ (0xdfff < c.toNat ∧ c.toNat < 0x110000) := c.valid

/-- The scan combines a high surrogate with an encoded low surrogate. -/
theorem parseLowSur_spec (n m : Nat) (hm : m < 65536) (t : List Char)
    (hr : 0xdc00 ≤ m ∧ m < 0xe000) :
    parseLowSur n ('\\' :: 'u' :: (hex4 m ++ t)) =
      some (Char.ofNat (0x10000 + (n - 0xd800) * 0x400 + (m - 0xdc00)), t) := by
  simp only [hex4, List.cons_append, List.nil_append, parseLowSur,
    hex4val_hex4 m hm, hr.1, hr.2, and_self, if_true]

/-- The scan of an encoded `\uXXXX` group reaches the range dispatch. -/
theorem parseEsc_u4 (n : Nat) (hn : n < 65536) (t : List Char) :
    parseEsc ('u' :: (hex4 n ++ t)) =
      (if 0xd800 ≤ n ∧ n < 0xdc00 then parseLowSur n t
       else if 0xdc00 ≤ n ∧ n < 0xe000 then none
       else some (Char.ofNat n, t)) := by
  simp only [hex4, List.cons_append, List.nil_append, parseEsc,
    hex4val_hex4 n hn]

/-- The scan consumes a non-surrogate `\uXXXX` escape as one character. -/
theorem parseEsc_u (n : Nat) (t : List Char) (hlt : n < 0x10000)
    (hval : ¬ (0xd800 ≤ n ∧ n < 0xe000)) :
    parseEsc ('u' :: (hex4 n ++ t)) = some (Char.ofNat n, t) := by
  rw [parseEsc_u4 n hlt, if_neg (by omega), if_neg (by omega)]

/-- The scan combines a surrogate-pair escape into one character. -/
theorem parseEsc_pair (n : Nat) (t : List Char) (h1 : 0x10000 ≤ n)
    (h2 : n < 0x110000) :
    parseEsc ('u' :: (hex4 (0xd800 + (n - 0x10000) / 0x400) ++
        ('\\' :: 'u' :: (hex4 (0xdc00 + (n - 0x10000) % 0x400) ++ t)))) =
      some (Char.ofNat n, t) := by
  rw [parseEsc_u4 _ (by omega), if_pos ⟨by omega, by omega⟩,
    parseLowSur_spec _ _ (by omega) t ⟨by omega, by omega⟩]
  have harith : 0x10000 +
      (0xd800 + (n - 0x10000) / 0x400 - 0xd800) * 0x400 +
      (0xdc00 + (n - 0x10000) % 0x400 - 0xdc00) = n := by omega
  rw [harith]

/-- A closing quote ends the string body. -/
theorem parseStringBody_quote (fuel : Nat) (r : List Char) :
    parseStringBody (fuel + 1) ('"' :: r) = some ([], r) := by
  simp [parseStringBody]

/-- A backslash consumes one escape and continues. -/
theorem parseStringBody_esc (fuel : Nat) (r : List Char) (q : Char × List Char)
    (h : parseEsc r = some q) :
    parseStringBody (fuel + 1) ('\\' :: r) =
      (parseStringBody fuel q.2).map (fun p => (q.1 :: p.1, p.2)) := by
  simp only [parseStringBody, if_true, if_false, h]
  cases pb : parseStringBody fuel q.2 <;> simp [pb]

/-- Any other printable character is taken literally. -/
theorem parseStringBody_lit (fuel : Nat) (c : Char) (r : List Char)
    (h1 : c ≠ '"') (h2 : c ≠ '\\') (h3 : ¬ c.toNat < 0x20) :
    parseStringBody (fuel + 1) (c :: r) =
      (parseStringBody fuel r).map (fun p => (c :: p.1, p.2)) := by
  simp only [parseStringBody, h1, h2, h3, if_false]
  cases pb : parseStringBody fuel r <;> simp [pb]

/-- Scanning the encoder's escape of one character recovers exactly that
character. -/
theorem parse_escapeChar (fuel : Nat) (c : Char) (t : List Char) :
    parseStringBody (fuel + 1) (escapeChar c ++ t) =
      (parseStringBody fuel t).map (fun p => (c :: p.1, p.2)) := by
  have hv := char_valid c
  by_cases h1 : c = '"'
  · subst h1
    exact parseStringBody_esc fuel _ ('"', t) rfl
  by_cases h2 : c = '\\'
  · subst h2
    exact parseStringBody_esc fuel _ ('\\', t) rfl
  by_cases h3 : c = '\n'
  · subst h3
    exact parseStringBody_esc fuel _ ('\n', t) rfl
  by_cases h4 : c = '\r'
  · subst h4
    exact parseStringBody_esc fuel _ ('\r', t) rfl
  by_cases h5 : c = '\t'
  · subst h5
    exact parseStringBody_esc fuel _ ('\t', t) rfl
  by_cases h6 : c = Char.ofNat 8
  · subst h6
    exact parseStringBody_esc fuel _ (Char.ofNat 8, t) rfl
  by_cases h7 : c = Char.ofNat 12
  · subst h7
    exact parseStringBody_esc fuel _ (Char.ofNat 12, t) rfl
  have hdct : escDct c = none := by
    unfold escDct
    rw [if_neg h1, if_neg h2, if_neg h3, if_neg h4, if_neg h5, if_neg h6,
      if_neg h7]
  by_cases hr : c.toNat < 0x20 ∨ 0x7e < c.toNat
  · by_cases hs : c.toNat < 0x10000
    · have hesc : escapeChar c = '\\' :: 'u' :: hex4 c.toNat := by
        simp only [escapeChar, hdct, hr, hs, if_true]
      rw [hesc, show ('\\' :: 'u' :: hex4 c.toNat) ++ t
          = '\\' :: ('u' :: (hex4 c.toNat ++ t)) from by
        simp [List.cons_append]]
      rw [parseStringBody_esc fuel _ (Char.ofNat c.toNat, t)
        (parseEsc_u c.toNat t hs (by rcases hv with h | h <;> omega))]
      simp only [Char.ofNat_toNat]
    · have hesc : escapeChar c =
          ('\\' :: 'u' :: hex4 (0xd800 + (c.toNat - 0x10000) / 0x400)) ++
          ('\\' :: 'u' :: hex4 (0xdc00 + (c.toNat - 0x10000) % 0x400)) := by
        simp only [escapeChar, hdct, hr, if_true, hs, if_false]
      have hlt : c.toNat < 0x110000 := by rcases hv with h | h <;> omega
      rw [hesc, show (('\\' :: 'u' :: hex4 (0xd800 + (c.toNat - 0x10000) / 0x400)) ++
          ('\\' :: 'u' :: hex4 (0xdc00 + (c.toNat - 0x10000) % 0x400))) ++ t
          = '\\' :: ('u' :: (hex4 (0xd800 + (c.toNat - 0x10000) / 0x400) ++
            ('\\' :: 'u' :: (hex4 (0xdc00 + (c.toNat - 0x10000) % 0x400) ++ t))))
          from by simp [List.cons_append, List.append_assoc]]
      rw [parseStringBody_esc fuel _ (Char.ofNat c.toNat, t)
        (parseEsc_pair c.toNat t (by omega) hlt)]
      simp only [Char.ofNat_toNat]
  · have hesc : escapeChar c = [c] := by
      simp only [escapeChar, hdct, hr, if_false]
    rw [hesc, List.singleton_append,
      parseStringBody_lit fuel c t h1 h2 (by omega)]

/-- Scanning the encoded body recovers the original characters and stops at
the closing quote. -/
theorem parse_encStrBody (cs : List Char) : ∀ fuel : Nat, cs.length < fuel →
    ∀ t : List Char,
    parseStringBody fuel (encStrBody cs ++ '"' :: t) = some (cs, t) := by
  induction cs with
  | nil =>
    intro fuel hf t
    cases fuel with
    | zero => omega
    | succ m => exact parseStringBody_quote m t
  | cons c cs ih =>
    intro fuel hf t
    cases fuel with
    | zero => omega
    | succ m =>
      rw [encStrBody, List.append_assoc, parse_escapeChar m c _,
        ih m (by simpa using Nat.lt_of_succ_lt_succ hf) t]
      rfl

/-- The encoder never emits the empty token: an escape is nonempty. -/
theorem escapeChar_len (c : Char) : 1 ≤ (escapeChar c).length := by
  unfold escapeChar
  cases hd : escDct c with
  | some e =>
    unfold escDct at hd
    split_ifs at hd <;> (obtain rfl := Option.some.inj hd; simp)
  | none =>
    split_ifs <;> simp [hex4]

/-- The encoded body is at least as long as the original. -/
theorem encStrBody_len (cs : List Char) :
    cs.length ≤ (encStrBody cs).length := by
  induction cs with
  | nil => exact Nat.le_refl 0
  | cons c cs ih =>
    rw [encStrBody, List.length_append, List.length_cons]
    have := escapeChar_len c
    omega

/-- Scanning an encoded string literal recovers the original string. -/
theorem parse_encStr (s : String) (t : List Char) :
    parseJsonString (encStr s ++ t) = some (s, t) := by
  rw [encStr]
  show parseJsonString ('"' :: ((encStrBody s.data ++ ['"']) ++ t)) = some (s, t)
  rw [List.append_assoc]
  show (match parseStringBody (encStrBody s.data ++ '"' :: t).length
      (encStrBody s.data ++ '"' :: t) with
    | none => none
    | some p => some (String.mk p.1, p.2) : Option (String × List Char)) = some (s, t)
  have hlen : s.data.length < (encStrBody s.data ++ '"' :: t).length := by
    rw [List.length_append, List.length_cons]
    have := encStrBody_len s.data
    omega
  rw [parse_encStrBody s.data _ hlen t]

theorem skipWs_cons_false (c : Char) (z : List Char) (h : isWs c = false) :
    skipWs (c :: z) = c :: z := by
  simp [skipWs, h]

theorem parseItems_ws (fuel : Nat) (c : Char) (l : List Char)
    (h : isWs c = true) : parseItems fuel (c :: l) = parseItems fuel l := by
  cases fuel with
  | zero => rfl
  | succ m =>
    simp only [parseItems, skipWs, h, if_true]

theorem parseItems_string (m : Nat) (s : String) (x : List Char) :
    parseItems (m + 1) (encStr s ++ x) =
      (match skipWs x with
       | [] => none
       | c2 :: r2 =>
         if c2 = ',' then
           match parseItems m r2 with
           | none => none
           | some (xs, r3) => some (s :: xs, r3)
         else if c2 = ']' then some ([s], r2)
         else none) := by
  have h1 : encStr s ++ x = '"' :: ((encStrBody s.data ++ ['"']) ++ x) := by
    simp [encStr]
  have h2 : parseJsonString ('"' :: ((encStrBody s.data ++ ['"']) ++ x))
      = some (s, x) := by
    rw [← h1]
    exact parse_encStr s x
  rw [h1]
  simp only [parseItems, skipWs_cons_false _ _ (by decide : isWs '"' = false),
    h2, if_false]
  rw [if_neg (by decide : ¬ ('"' : Char) = ']')]

theorem encItems_len (l : List String) : l.length ≤ (encItems l).length := by
  induction l with
  | nil => exact Nat.le_refl 0
  | cons s rest ih =>
    cases rest with
    | nil => simp [encItems, encStr]
    | cons s2 rest2 =>
      have he : encItems (s :: s2 :: rest2) =
          encStr s ++ ',' :: ' ' :: encItems (s2 :: rest2) := rfl
      rw [he, List.length_append]
      simp only [List.length_cons] at ih ⊢
      simp only [encStr, List.length_cons, List.length_append]
      omega

theorem parseItems_enc (l : List String) : ∀ fuel : Nat, l.length < fuel →
    ∀ t : List Char,
    parseItems fuel (encItems l ++ ']' :: t) = some (l, t) := by
  induction l with
  | nil =>
    intro fuel hf t
    cases fuel with
    | zero => omega
    | succ m =>
      show parseItems (m + 1) (']' :: t) = some ([], t)
      simp only [parseItems, skipWs_cons_false _ _ (by decide : isWs ']' = false),
        if_pos rfl, if_true]
  | cons s rest ih =>
    intro fuel hf t
    cases fuel with
    | zero => omega
    | succ m =>
      cases rest with
      | nil =>
        show parseItems (m + 1) (encStr s ++ (']' :: t)) = some ([s], t)
        simp only [parseItems_string m s (']' :: t),
          skipWs_cons_false _ _ (by decide : isWs ']' = false), if_true,
          if_false]
        rw [if_neg (by decide : ¬ (']' : Char) = ',')]
      | cons s2 rest2 =>
        have he : encItems (s :: s2 :: rest2) ++ ']' :: t =
            encStr s ++ (',' :: ' ' :: (encItems (s2 :: rest2) ++ ']' :: t)) := by
          rw [show encItems (s :: s2 :: rest2) =
            encStr s ++ ',' :: ' ' :: encItems (s2 :: rest2) from rfl]
          simp [List.append_assoc]
        have hlt : (s2 :: rest2).length < m := by
          simp only [List.length_cons] at hf ⊢
          omega
        rw [he]
        simp only [parseItems_string m s _,
          skipWs_cons_false _ _ (by decide : isWs ',' = false), if_true,
          parseItems_ws m ' ' _ (by decide), ih m hlt t]

theorem parseTop_bracket (fuel : Nat) (x : List Char) :
    parseTop fuel ('[' :: x) =
      (match parseItems fuel x with
       | none => none
       | some (xs, rest) =>
         match skipWs rest with
         | [] => some xs
         | _ => none) := by
  simp only [parseTop, skipWs_cons_false _ _ (by decide : isWs '[' = false),
    if_pos rfl, if_true]

theorem parseStrList_dumps (l : List String) :
    parseStrList (dumpsStrList l) = some l := by
  unfold parseStrList
  rw [show (dumpsStrList l).data = '[' :: (encItems l ++ [']']) from rfl]
  rw [parseTop_bracket]
  rw [show (encItems l ++ [']'] : List Char) = encItems l ++ ']' :: [] from rfl]
  have hlen : l.length < ('[' :: (encItems l ++ [']'])).length + 1 := by
    simp only [List.length_cons, List.length_append]
    have := encItems_len l
    omega
  rw [parseItems_enc l _ hlen []]
  rfl

/-- C1 (as stated) is false on the code: with the experience filter supplied
as the empty string, `get_jobs` ignores the filter and returns a row whose
experience (`senior`) does not satisfy the supplied exact-equality predicate
of the spec. -/
theorem get_jobs_conjunctive_cex :
    get_jobs cexEmptyExpF cexState = some ([cexJob], 1) ∧
    specKeep cexEmptyExpF cexJob = false := ⟨by decide, by decide⟩

/-- C1 (amended): for every store and filter combination in which a supplied
experience or job_type value is nonempty, a successful `listJobs` returns
exactly the decoded rows satisfying every supplied predicate — title and
location as case-insensitive substring, experience and job_type as exact
equality, remote as boolean equality — and the returned count equals the
length of the returned list. -/
theorem get_jobs_conjunctive (f : Filters) (s : State) (data : List Job)
    (c : Nat) (hexp : f.experience ≠ some "") (hjt : f.job_type ≠ some "")
    (h : get_jobs f s = some (data, c)) :
    c = data.length ∧
    ∃ all, decodeAll (sortRows s.rows) = some all ∧
      data = all.filter (specKeep f) := by
  obtain ⟨all, hall, hdata, hc⟩ := get_jobs_eq f s data c h
  refine ⟨hc, all, hall, ?_⟩
  rw [hdata]
  exact List.filter_congr fun j _ => keep_eq_spec f j hexp hjt

/-- C1 witness: the amended statement evaluated on a one-row store with
the filter `experience=senior`. -/
theorem get_jobs_conjunctive_w :
    (1 : Nat) = [cexJob].length ∧
    ∃ all, decodeAll (sortRows cexState.rows) = some all ∧
      [cexJob] = all.filter (specKeep cexSeniorF) :=
  get_jobs_conjunctive cexSeniorF cexState [cexJob] 1 (by decide) (by decide)
    (by decide)

/-- C2: on an existing id, `applyToJob` reports success, increments exactly
that row's `applications_count` by one and changes no other field and no
other row; `n` calls increment by exactly `n`, and the new value is visible
to a subsequent `listJobs`. -/
theorem apply_to_job_spec (s : State) (jid : Nat)
    (h : ∃ r ∈ s.rows, r.id = jid) :
    (apply_to_job jid s).2 = applySuccessResp ∧
    applySuccessResp.success = true ∧ applySuccessResp.status = 200 ∧
    (apply_to_job jid s).1.rows = s.rows.map (bumpIf jid) ∧
    (∀ r : Row, r.id = jid →
      bumpIf jid r = { r with applications_count := r.applications_count + 1 }) ∧
    (∀ r : Row, r.id ≠ jid → bumpIf jid r = r) ∧
    (∀ n : Nat, (applyN jid n s).rows = s.rows.map
      (fun r => if r.id = jid then
        { r with applications_count := r.applications_count + n } else r)) ∧
    (∀ data c, get_jobs noFilters (apply_to_job jid s).1 = some (data, c) →
      ∀ r ∈ s.rows, r.id = jid →
        ∃ j ∈ data, j.id = jid ∧
          j.applications_count = r.applications_count + 1) := by
  have ha := apply_hit s jid h
  refine ⟨by rw [ha], rfl, rfl, by rw [ha], bumpIf_hit jid, bumpIf_miss jid,
    fun n => applyN_rows jid n s h, ?_⟩
  intro data c hg r hr hid
  obtain ⟨all, hall, hdata, _⟩ := get_jobs_eq noFilters _ data c hg
  have hmemrows : bumpIf jid r ∈ (apply_to_job jid s).1.rows := by
    rw [ha]
    exact List.mem_map_of_mem _ hr
  have hmemsort : bumpIf jid r ∈ sortRows (apply_to_job jid s).1.rows :=
    ((sortRows_perm _).mem_iff).mpr hmemrows
  obtain ⟨j, hjall, hdec⟩ := decodeAll_mem hall hmemsort
  refine ⟨j, ?_, ?_, ?_⟩
  · rw [hdata]
    exact List.mem_filter.mpr ⟨hjall, noFilters_keep j⟩
  · rw [(decodeRow_fields hdec).1, bumpIf_id]
    exact hid
  · rw [(decodeRow_fields hdec).2.2.1, bumpIf_hit jid r hid]

/-- C2 witness: one application against the one-row store. -/
theorem apply_to_job_spec_w :
    (apply_to_job 1 cexState).2 = applySuccessResp :=
  (apply_to_job_spec cexState 1 ⟨cexRow, by decide, by decide⟩).1

/-- C3: on an id absent from the store, `applyToJob` answers the 404
envelope with `success:false` and error `Job not found`, and leaves the
whole store unchanged. -/
theorem apply_to_job_missing (s : State) (jid : Nat)
    (h : ∀ r ∈ s.rows, r.id ≠ jid) :
    apply_to_job jid s = (s, jobNotFoundResp) ∧
    jobNotFoundResp.status = 404 ∧ jobNotFoundResp.success = false ∧
    jobNotFoundResp.error = some "Job not found" ∧
    (apply_to_job jid s).1 = s := by
  have hany : ¬ s.rows.any (fun r => r.id == jid) = true := by
    rw [List.any_eq_true]
    rintro ⟨r, hr, hb⟩
    exact h r hr (by simpa using hb)
  have heq : apply_to_job jid s = (s, jobNotFoundResp) := by
    unfold apply_to_job
    rw [if_neg hany]
  exact ⟨heq, rfl, rfl, rfl, by rw [heq]⟩

/-- C3 witness: applying to the unknown id 2 on the one-row store. -/
theorem apply_to_job_missing_w :
    apply_to_job 2 cexState = (cexState, jobNotFoundResp) :=
  (apply_to_job_missing cexState 2 (by decide)).1

/-- C4: seeding an empty store inserts exactly the three fixed records,
seeding a non-empty store inserts nothing, and any positive number of
seeder runs from empty leaves exactly the three records. -/
theorem seed_sample_data_spec :
    (seed_sample_data (init_db emptyState)).rows = sampleRows 1 ∧
    (sampleRows 1).length = 3 ∧
    (∀ s : State, s.rows ≠ [] → seed_sample_data s = s) ∧
    (∀ n : Nat, 1 ≤ n → (seedIter n emptyState).rows = sampleRows 1) := by
  refine ⟨rfl, rfl, seed_nonempty, ?_⟩
  intro n hn
  cases n with
  | zero => omega
  | succ m =>
    rw [seedIter]
    exact seedIter_fixed m _ (by rw [seed_empty])

/-- C4 witness: two seeder runs from empty, and a seeder run on the already
seeded store. -/
theorem seed_sample_data_spec_w :
    (seedIter 2 emptyState).rows = sampleRows 1 ∧
    seed_sample_data seededState = seededState :=
  ⟨seed_sample_data_spec.2.2.2 2 (by decide),
   seed_sample_data_spec.2.2.1 seededState (by decide)⟩

/-- C5: every list of strings round-trips losslessly through the stored
serialized text form, and an empty or missing stored value decodes to the
empty sequence rather than failing. -/
theorem tags_benefits_roundtrip :
    (∀ l : List String, parseStrList (dumpsStrList l) = some l) ∧
    (∀ l : List String,
      parseStrList (pyOr (some (dumpsStrList l))) = some l) ∧
    parseStrList (pyOr none) = some [] ∧
    parseStrList (pyOr (some "")) = some [] := by
  have hne : ∀ l : List String, dumpsStrList l ≠ "" := by
    intro l h
    have h2 : ('[' :: (encItems l ++ [']']) : List Char) = [] :=
      congrArg String.data h
    cases h2
  refine ⟨parseStrList_dumps, ?_, by decide, by decide⟩
  intro l
  show parseStrList
    (if dumpsStrList l = "" then "[]" else dumpsStrList l) = some l
  rw [if_neg (hne l), parseStrList_dumps l]

/-- C6: across every request sequence each stored row keeps its position,
its id and all non-counter columns (equal `stripCount`), and its
`applications_count` never decreases; no request except `applyToJob`
changes a counter, and `applyToJob` changes only the matching row, by
exactly one. -/
theorem request_invariants :
    (∀ (s : State) (ops : List Op) (i : Nat) (r : Row),
      s.rows[i]? = some r →
      ∃ r', (run s ops).rows[i]? = some r' ∧ stripCount r' = stripCount r ∧
        r.applications_count ≤ r'.applications_count) ∧
    (∀ (s : State) (op : Op), (∀ jid, op ≠ Op.applyOp jid) →
      ∀ (i : Nat) (r r' : Row), s.rows[i]? = some r →
        (step s op).rows[i]? = some r' →
        r'.applications_count = r.applications_count) ∧
    (∀ (s : State) (jid i : Nat) (r r' : Row), s.rows[i]? = some r →
      (step s (Op.applyOp jid)).rows[i]? = some r' →
      r' = r ∨ (r.id = jid ∧
        r' = { r with applications_count := r.applications_count + 1 })) :=
  ⟨fun s ops i r h => run_preserve ops s i r h, step_counts, step_apply⟩

/-- C6 witness: one apply request against the one-row store. -/
theorem request_invariants_w :
    bumpIf 1 cexRow = cexRow ∨ (cexRow.id = 1 ∧
      bumpIf 1 cexRow = { cexRow with applications_count :=
        cexRow.applications_count + 1 }) :=
  request_invariants.2.2 cexState 1 0 cexRow (bumpIf 1 cexRow) (by decide)
    (by decide)

/-- C7: the remote filter is an exact boolean match — absent means no
constraint; a supplied value lowering to `true` keeps exactly the remote
rows, one lowering to `false` keeps exactly the non-remote rows; and every
row returned by `listJobs` satisfies the remote conjunct. -/
theorem remote_filter_exact (j : Job) :
    remotePred none j = true ∧
    (∀ v : String, lowerStr v = "true" →
      (remotePred (some v) j = true ↔ j.remote = true)) ∧
    (∀ v : String, lowerStr v = "false" →
      (remotePred (some v) j = true ↔ j.remote = false)) ∧
    (∀ (f : Filters) (s : State) (data : List Job) (c : Nat),
      get_jobs f s = some (data, c) → ∀ jj ∈ data,
        remotePred f.remote jj = true) := by
  refine ⟨rfl, ?_, ?_, ?_⟩
  · intro v hv
    simp [remotePred, hv]
  · intro v hv
    simp [remotePred, hv]
  · intro f s data c h jj hjj
    obtain ⟨all, hall, hdata, _⟩ := get_jobs_eq f s data c h
    rw [hdata] at hjj
    exact codeKeep_remote (List.mem_filter.mp hjj).2

/-- C7 witness: the predicate evaluated at the value `TRUE` on the decoded
sample row. -/
theorem remote_filter_exact_w :
    remotePred (some "TRUE") cexJob = true ↔ cexJob.remote = true :=
  (remote_filter_exact cexJob).2.1 "TRUE" (by decide)

/-- C8: every successful `listJobs` answer is ordered by the `posted_date`
string descending under plain lexicographic string comparison. -/
theorem get_jobs_sorted (f : Filters) (s : State) (data : List Job) (c : Nat)
    (h : get_jobs f s = some (data, c)) :
    data.Pairwise (fun a b => b.posted_date ≤ a.posted_date) := by
  obtain ⟨all, hall, hdata, _⟩ := get_jobs_eq f s data c h
  rw [hdata]
  exact (decodeAll_pairwise hall (sortRows_sorted s.rows)).filter _

/-- C8 witness: the unfiltered listing of the seeded store. -/
theorem get_jobs_sorted_w :
    seededListing.1.Pairwise (fun a b => b.posted_date ≤ a.posted_date) :=
  get_jobs_sorted noFilters seededState seededListing.1 seededListing.2
    (by decide)

/-- C9: on the freshly seeded store, `experience=senior` returns exactly the
Senior Software Engineer posting and `remote=false` returns exactly the
Frontend Developer posting. -/
theorem seeded_filter_examples :
    (get_jobs cexSeniorF seededState).map
      (fun p => (p.1.map Job.title, p.2)) =
        some (["Senior Software Engineer"], 1) ∧
    (get_jobs { remote := some "false" } seededState).map
      (fun p => (p.1.map Job.title, p.2)) =
        some (["Frontend Developer"], 1) := ⟨by decide, by decide⟩

/-- C10: a supplied-but-empty title, location, experience or job_type query
value behaves exactly like an absent one, whereas a supplied-but-empty
remote value is not ignored: it constrains the answer to rows whose remote
field is false. -/
theorem empty_string_filters (f : Filters) (s : State) :
    get_jobs { f with title := some "" } s =
      get_jobs { f with title := none } s ∧
    get_jobs { f with location := some "" } s =
      get_jobs { f with location := none } s ∧
    get_jobs { f with experience := some "" } s =
      get_jobs { f with experience := none } s ∧
    get_jobs { f with job_type := some "" } s =
      get_jobs { f with job_type := none } s ∧
    (∀ j : Job, remotePred (some "") j = !j.remote) ∧
    (∀ data c, get_jobs { f with remote := some "" } s = some (data, c) →
      ∀ j ∈ data, j.remote = false) := by
  refine ⟨get_jobs_congr { f with title := some "" } { f with title := none }
      (fun j => rfl) s,
    get_jobs_congr { f with location := some "" } { f with location := none }
      (fun j => rfl) s,
    get_jobs_congr { f with experience := some "" }
      { f with experience := none } (fun j => rfl) s,
    get_jobs_congr { f with job_type := some "" } { f with job_type := none }
      (fun j => rfl) s, ?_, ?_⟩
  · intro j
    cases hj : j.remote <;> simp [remotePred, hj] <;> decide
  · intro data c h j hj
    obtain ⟨all, hall, hdata, _⟩ := get_jobs_eq _ s data c h
    rw [hdata] at hj
    have hk : (j.remote == (lowerStr "" == "true")) = true :=
      codeKeep_remote (List.mem_filter.mp hj).2
    have hb : (lowerStr "" == "true") = false := by decide
    rw [hb] at hk
    simpa using hk

/-- C10 witness: the empty remote value on the seeded store keeps exactly
the non-remote Frontend Developer posting. -/
theorem empty_string_filters_w : frontendJob.remote = false :=
  (empty_string_filters noFilters seededState).2.2.2.2.2
    [frontendJob] 1 (by decide) frontendJob (by decide)
